import Mathlib

/-!
Verification of the incremental MySQL → pgvector sync and search service
(`src/app.py`) against its natural-language specification.

Shallow embedding conventions:
* Python floats are modelled as `ℚ`; the claims under study concern vector
  lengths, zero values and comparisons only, never rounding.
* The embedding provider's HTTP behaviour is a value of `ProviderResp`:
  either one of the failure modes that `requests` surfaces as a
  `RequestException` (connection failure, non-2xx after `raise_for_status`,
  undecodable JSON body), or a decoded JSON body.  The decoded body is
  modelled by the fields the code reads: an optional `data` array of items,
  each with an optional `embedding` list.
* Python exceptions are explicit: `Except PyExc`.  `requestException`
  stands for `requests.exceptions.RequestException`, `indexError` for the
  `IndexError` raised by `[...][0]` on an empty list.
* Database tables are lists of rows; a psycopg2 connection is a pair of the
  committed table and the current in-transaction view (`commit` copies the
  view into the committed table, `rollback` restores the view from it).
  A SQL result set without an `ORDER BY` is modelled as the list in the
  order the store returns it (the order of the modelled table list).
* The one MySQL query of the sync pass has no `ORDER BY`, so the source
  table list of `SyncEnv` carries the store's return order verbatim.
-/

abbrev Vec := List ℚ

/-- The fixed embedding dimensionality: `expected_dim: int = 4096` in
`get_embeddings`, used at every call site. -/
def D : Nat := 4096

/-- One element of the provider body's `data` array, keeping the only key
the code reads (`item.get("embedding", [])`). `none` models a dict without
an `embedding` key. -/
structure RespItem where
  embeddingOpt : Option Vec
deriving DecidableEq

/-- A decoded provider response body; `none` models a JSON object without a
`data` key (the code then falls back to `[{}]`). -/
structure RespBody where
  dataOpt : Option (List RespItem)
deriving DecidableEq

/-- Outcome of the provider round trip performed by `get_embeddings`: the
three failure modes that reach the `except requests.exceptions.RequestException`
handler, or a decoded body. -/
inductive ProviderResp where
  | netFailure
  | httpError
  | badJson
  | ok (body : RespBody)
deriving DecidableEq

/-- The Python exceptions relevant to `get_embeddings`. -/
inductive PyExc where
  | requestException
  | indexError
deriving DecidableEq

/-- `np.pad(e, (0, max(0, dim - len(e))), mode='constant')`: append zeros up
to `dim`; a no-op when `e` is already at least `dim` long (Nat subtraction
mirrors the `max(0, ...)`). -/
def padTail (e : Vec) (dim : Nat) : Vec := e ++ List.replicate (dim - e.length) 0

/-- The `try:` block of `get_embeddings` (src/app.py lines 94-108): POST to
the provider, `raise_for_status`, decode, then
`result.get("data", [{}])[0].get("embedding", [])` and the emptiness /
dimension check with zero padding. -/
def get_embeddings_try (resp : ProviderResp) (expected_dim : Nat) : Except PyExc Vec :=
  match resp with
  | ProviderResp.netFailure => Except.error PyExc.requestException
  | ProviderResp.httpError => Except.error PyExc.requestException
  | ProviderResp.badJson => Except.error PyExc.requestException
  | ProviderResp.ok body =>
    match body.dataOpt.getD [⟨none⟩] with
    | [] => Except.error PyExc.indexError
    | item :: _ =>
      let embedding := item.embeddingOpt.getD []
      if embedding = [] ∨ embedding.length ≠ expected_dim then
        Except.ok (padTail embedding expected_dim)
      else
        Except.ok embedding

/-- `get_embeddings` (src/app.py lines 82-112): the `try:` body wrapped in
`except requests.exceptions.RequestException`, which returns
`[0.0] * expected_dim`.  Any other exception escapes to the caller. -/
def get_embeddings (resp : ProviderResp) (expected_dim : Nat) : Except PyExc Vec :=
  match get_embeddings_try resp expected_dim with
  | Except.error PyExc.requestException => Except.ok (List.replicate expected_dim 0)
  | r => r

/-- Length of the embedding array actually present in the provider response,
0 when no embedding is extracted (failure, missing keys). -/
def providedLen (resp : ProviderResp) : Nat :=
  match resp with
  | ProviderResp.ok body =>
    (((body.dataOpt.getD [⟨none⟩]).headD ⟨none⟩).embeddingOpt.getD []).length
  | _ => 0

theorem padTail_length (e : Vec) (dim : Nat) :
    (padTail e dim).length = e.length + (dim - e.length) := by
  simp [padTail]

theorem padTail_of_le (e : Vec) (dim : Nat) (h : dim ≤ e.length) : padTail e dim = e := by
  unfold padTail
  rw [Nat.sub_eq_zero_of_le h]
  simp

theorem get_embeddings_of_try_ok {resp : ProviderResp} {dim : Nat} {v : Vec}
    (h : get_embeddings_try resp dim = Except.ok v) : get_embeddings resp dim = Except.ok v := by
  unfold get_embeddings
  rw [h]

theorem get_embeddings_try_some {item : RespItem} {rest : List RespItem} {e : Vec} {dim : Nat}
    (h : item.embeddingOpt = some e) :
    get_embeddings_try (ProviderResp.ok ⟨some (item :: rest)⟩) dim =
      (if e = [] ∨ e.length ≠ dim then Except.ok (padTail e dim) else Except.ok e) := by
  unfold get_embeddings_try
  simp [h]

/-- A provider body whose first data item carries an embedding one element
longer than the expected dimension. -/
def longBody : RespBody := ⟨some [⟨some (List.replicate (D + 1) 1)⟩]⟩

/-- A provider body that decodes fine but whose `data` array is empty, so
`result.get("data", [{}])[0]` raises `IndexError`. -/
def emptyDataBody : RespBody := ⟨some []⟩

/-- C2, counterexample: when the provider returns an embedding of length
`D + 1`, `get_embeddings` returns it unchanged (the pad is a no-op), so the
result does not have length `D`. -/
theorem get_embeddings_overlong_breaks_dim :
    get_embeddings (ProviderResp.ok longBody) D = Except.ok (List.replicate (D + 1) (1 : ℚ)) ∧
    (List.replicate (D + 1) (1 : ℚ)).length ≠ D := by
  constructor
  · have htry : get_embeddings_try (ProviderResp.ok longBody) D =
        Except.ok (padTail (List.replicate (D + 1) 1) D) := by
      rw [show longBody = ⟨some [⟨some (List.replicate (D + 1) 1)⟩]⟩ from rfl]
      rw [get_embeddings_try_some rfl]
      rw [if_pos (Or.inr (by simp))]
    have hpad : padTail (List.replicate (D + 1) (1 : ℚ)) D = List.replicate (D + 1) 1 :=
      padTail_of_le _ _ (by simp)
    rw [get_embeddings_of_try_ok htry, hpad]
  · simp

/-- C2, amended: whenever `get_embeddings` returns normally, the vector's
length is `max D L` where `L` is the length of the embedding the provider
supplied (`0` when none was extracted): exactly `D` on failure, on a
missing or short embedding, and on an exact-length one, but an over-length
embedding keeps its own length. -/
theorem get_embeddings_dim_eq_max :
    ∀ (resp : ProviderResp) (v : Vec),
      get_embeddings resp D = Except.ok v → v.length = max D (providedLen resp) := by
  intro resp v h
  match resp with
  | ProviderResp.netFailure =>
    rw [show get_embeddings ProviderResp.netFailure D = Except.ok (List.replicate D 0) from rfl]
      at h
    injection h with h
    subst h
    simp [providedLen]
  | ProviderResp.httpError =>
    rw [show get_embeddings ProviderResp.httpError D = Except.ok (List.replicate D 0) from rfl]
      at h
    injection h with h
    subst h
    simp [providedLen]
  | ProviderResp.badJson =>
    rw [show get_embeddings ProviderResp.badJson D = Except.ok (List.replicate D 0) from rfl]
      at h
    injection h with h
    subst h
    simp [providedLen]
  | ProviderResp.ok ⟨none⟩ =>
    rw [show get_embeddings (ProviderResp.ok ⟨none⟩) D = Except.ok (padTail [] D) from rfl] at h
    injection h with h
    subst h
    rw [padTail_length]
    simp [providedLen]
  | ProviderResp.ok ⟨some []⟩ =>
    rw [show get_embeddings (ProviderResp.ok ⟨some []⟩) D = Except.error PyExc.indexError
      from rfl] at h
    cases h
  | ProviderResp.ok ⟨some (⟨none⟩ :: rest)⟩ =>
    rw [show get_embeddings (ProviderResp.ok ⟨some (⟨none⟩ :: rest)⟩) D =
        Except.ok (padTail [] D) from rfl] at h
    injection h with h
    subst h
    rw [padTail_length]
    simp [providedLen]
  | ProviderResp.ok ⟨some (⟨some e⟩ :: rest)⟩ =>
    have hpl : providedLen (ProviderResp.ok ⟨some (⟨some e⟩ :: rest)⟩) = e.length := by
      simp [providedLen]
    by_cases hc : e = [] ∨ e.length ≠ D
    · have htry := @get_embeddings_try_some ⟨some e⟩ rest e D rfl
      rw [if_pos hc] at htry
      rw [get_embeddings_of_try_ok htry] at h
      injection h with h
      subst h
      rw [padTail_length, hpl]
      rcases Nat.le_total e.length D with h1 | h1
      · rw [Nat.max_eq_left h1]
        omega
      · rw [Nat.max_eq_right h1]
        omega
    · have htry := @get_embeddings_try_some ⟨some e⟩ rest e D rfl
      rw [if_neg hc] at htry
      rw [get_embeddings_of_try_ok htry] at h
      injection h with h
      subst h
      push_neg at hc
      rw [hpl, hc.2]
      simp

/-- C2 witness: on provider network failure the returned zero vector has
length `max D 0 = D`. -/
theorem get_embeddings_dim_eq_max_witness :
    (List.replicate D (0 : ℚ)).length = max D (providedLen ProviderResp.netFailure) :=
  get_embeddings_dim_eq_max ProviderResp.netFailure (List.replicate D 0) rfl

/-- C3, counterexample: a well-formed body whose `data` array is empty makes
`get_embeddings` raise (`IndexError` from `[...][0]`) instead of returning a
zero vector: the `except` clause only catches `RequestException`. -/
theorem get_embeddings_empty_data_raises :
    get_embeddings (ProviderResp.ok emptyDataBody) D = Except.error PyExc.indexError := rfl

/-- C3, amended: `get_embeddings` propagates an exception exactly when the
decoded body has a present-but-empty `data` array; on network failure,
non-2xx status or an undecodable body it returns the `D`-zero vector (and a
missing `data` key or missing `embedding` field is repaired by padding, not
an error). -/
theorem get_embeddings_error_iff_empty_data :
    ∀ resp : ProviderResp,
      ((∃ e, get_embeddings resp D = Except.error e) ↔ resp = ProviderResp.ok ⟨some []⟩) ∧
      ((resp = ProviderResp.netFailure ∨ resp = ProviderResp.httpError ∨
          resp = ProviderResp.badJson) →
        get_embeddings resp D = Except.ok (List.replicate D 0)) := by
  intro resp
  constructor
  · constructor
    · rintro ⟨exc, he⟩
      match resp with
      | ProviderResp.netFailure =>
        rw [show get_embeddings ProviderResp.netFailure D = Except.ok (List.replicate D 0)
          from rfl] at he
        cases he
      | ProviderResp.httpError =>
        rw [show get_embeddings ProviderResp.httpError D = Except.ok (List.replicate D 0)
          from rfl] at he
        cases he
      | ProviderResp.badJson =>
        rw [show get_embeddings ProviderResp.badJson D = Except.ok (List.replicate D 0)
          from rfl] at he
        cases he
      | ProviderResp.ok ⟨none⟩ =>
        rw [show get_embeddings (ProviderResp.ok ⟨none⟩) D = Except.ok (padTail [] D)
          from rfl] at he
        cases he
      | ProviderResp.ok ⟨some []⟩ => rfl
      | ProviderResp.ok ⟨some (⟨none⟩ :: rest)⟩ =>
        rw [show get_embeddings (ProviderResp.ok ⟨some (⟨none⟩ :: rest)⟩) D =
            Except.ok (padTail [] D) from rfl] at he
        cases he
      | ProviderResp.ok ⟨some (⟨some e⟩ :: rest)⟩ =>
        by_cases hc : e = [] ∨ e.length ≠ D
        · have htry := @get_embeddings_try_some ⟨some e⟩ rest e D rfl
          rw [if_pos hc] at htry
          rw [get_embeddings_of_try_ok htry] at he
          cases he
        · have htry := @get_embeddings_try_some ⟨some e⟩ rest e D rfl
          rw [if_neg hc] at htry
          rw [get_embeddings_of_try_ok htry] at he
          cases he
    · rintro rfl
      exact ⟨PyExc.indexError, rfl⟩
  · rintro (rfl | rfl | rfl) <;> rfl

/-- C3 witness: on a network failure the client returns the zero vector of
length `D` rather than raising. -/
theorem get_embeddings_error_iff_empty_data_witness :
    get_embeddings ProviderResp.netFailure D = Except.ok (List.replicate D 0) :=
  (get_embeddings_error_iff_empty_data ProviderResp.netFailure).2 (Or.inl rfl)

/-- A row of the pgvector table `genie_documents` (see the `INSERT` at
src/app.py lines 387-395 and the `UPDATE` at lines 121-129): `question`
carries a unique constraint, embeddings are nullable until enriched. -/
structure GenieDoc where
  id : Nat
  question : String
  answer : String
  link : Option String
  date : Option String
  question_embedding : Option Vec
  answer_embedding : Option Vec
deriving DecidableEq

/-- One row of the `/search` result set: the selected columns of the query
at src/app.py lines 183-198, with the computed similarity score. -/
structure SearchRow where
  question : String
  answer : String
  link : Option String
  date : Option String
  similarity_score : ℚ
deriving DecidableEq

/-- The `WHERE question_embedding IS NOT NULL AND 1 - (question_embedding
<=> q) > threshold` filter together with the `SELECT` list: each kept row of
`genie_documents` becomes a `SearchRow` scored by `1 - dist`, where `dist`
is the store's `<=>` cosine-distance operator, consumed as a black box. -/
def scoreRows (dist : Vec → Vec → ℚ) (qe : Vec) (table : List GenieDoc) (thr : ℚ) :
    List SearchRow :=
  table.filterMap (fun d =>
    match d.question_embedding with
    | none => none
    | some v =>
      if thr < 1 - dist v qe then
        some ⟨d.question, d.answer, d.link, d.date, 1 - dist v qe⟩
      else none)

/-- Insert a row into a list kept sorted by descending similarity score. -/
def insertDesc (x : SearchRow) : List SearchRow → List SearchRow
  | [] => [x]
  | y :: ys => if y.similarity_score < x.similarity_score then x :: y :: ys
               else y :: insertDesc x ys

/-- `ORDER BY similarity_score DESC` (ties in store order, unspecified). -/
def sortDesc : List SearchRow → List SearchRow
  | [] => []
  | x :: xs => insertDesc x (sortDesc xs)

/-- The relational core of `search_knowledge_base` (src/app.py lines
181-200): filter, score, order descending, `LIMIT lim`. -/
def search_knowledge_base (dist : Vec → Vec → ℚ) (qe : Vec) (table : List GenieDoc)
    (thr : ℚ) (lim : Nat) : List SearchRow :=
  (sortDesc (scoreRows dist qe table thr)).take lim

/-- The four observable outcomes of the `/search` endpoint: a result list,
or one of its three `except` handlers (src/app.py lines 217-234). -/
inductive SearchOutcome where
  | ok (res : List SearchRow)
  | dbError
  | embeddingServiceError
  | serverError
deriving DecidableEq

/-- The `/search` endpooint `search_knowledge_base` (src/app.py lines
168-234) with the vector store available: embed the query via
`get_embeddings`, then run the similarity query.  An exception from
`get_embeddings` hits the endpoint's handlers: `requests.RequestException`
would map to the 503 `embeddingServiceError` answer, anything else to the
500 `serverError` answer. -/
def search_endpoint (dist : Vec → Vec → ℚ) (resp : ProviderResp) (table : List GenieDoc)
    (thr : ℚ) (lim : Nat) : SearchOutcome :=
  match get_embeddings resp D with
  | Except.error PyExc.requestException => SearchOutcome.embeddingServiceError
  | Except.error PyExc.indexError => SearchOutcome.serverError
  | Except.ok qe => SearchOutcome.ok (search_knowledge_base dist qe table thr lim)

theorem mem_insertDesc {x y : SearchRow} {l : List SearchRow} :
    y ∈ insertDesc x l ↔ y = x ∨ y ∈ l := by
  induction l with
  | nil => simp [insertDesc]
  | cons z zs ih =>
    unfold insertDesc
    by_cases h : z.similarity_score < x.similarity_score
    · rw [if_pos h, List.mem_cons, List.mem_cons]
    · rw [if_neg h, List.mem_cons, ih, List.mem_cons]
      tauto

theorem mem_sortDesc {y : SearchRow} {l : List SearchRow} : y ∈ sortDesc l ↔ y ∈ l := by
  induction l with
  | nil => simp [sortDesc]
  | cons z zs ih =>
    unfold sortDesc
    rw [mem_insertDesc]
    simp [ih]

theorem pairwise_insertDesc {x : SearchRow} {l : List SearchRow}
    (h : l.Pairwise (fun a b => b.similarity_score ≤ a.similarity_score)) :
    (insertDesc x l).Pairwise (fun a b => b.similarity_score ≤ a.similarity_score) := by
  induction l with
  | nil => simp [insertDesc]
  | cons z zs ih =>
    rw [List.pairwise_cons] at h
    unfold insertDesc
    by_cases hxz : z.similarity_score < x.similarity_score
    · rw [if_pos hxz]
      rw [List.pairwise_cons]
      constructor
      · intro b hb
        rcases List.mem_cons.mp hb with rfl | hb
        · exact le_of_lt hxz
        · exact le_trans (h.1 b hb) (le_of_lt hxz)
      · exact List.pairwise_cons.mpr h
    · rw [if_neg hxz]
      rw [List.pairwise_cons]
      constructor
      · intro b hb
        rcases mem_insertDesc.mp hb with rfl | hb
        · exact le_of_not_lt hxz
        · exact h.1 b hb
      · exact ih h.2

theorem pairwise_sortDesc (l : List SearchRow) :
    (sortDesc l).Pairwise (fun a b => b.similarity_score ≤ a.similarity_score) := by
  induction l with
  | nil => simp [sortDesc]
  | cons z zs ih => exact pairwise_insertDesc ih

theorem mem_scoreRows {dist : Vec → Vec → ℚ} {qe : Vec} {table : List GenieDoc} {thr : ℚ}
    {row : SearchRow} (h : row ∈ scoreRows dist qe table thr) :
    thr < row.similarity_score ∧
      ∃ d ∈ table, ∃ v, d.question_embedding = some v ∧
        row.similarity_score = 1 - dist v qe ∧ row.question = d.question ∧
        row.answer = d.answer := by
  rw [scoreRows, List.mem_filterMap] at h
  obtain ⟨d, hd, hf⟩ := h
  split at hf
  · cases hf
  · rename_i v he
    split at hf
    · rename_i hthr
      injection hf with hf
      subst hf
      exact ⟨hthr, d, hd, v, he, rfl, rfl, rfl⟩
    · cases hf

/-- C8: every `/search` result row passes the strict similarity floor and
stems from a stored record with a non-null question embedding, scored by
`1 - dist`; the result list is sorted by descending score and holds at most
`lim` rows; an empty store yields the empty list, not an error. -/
theorem search_results_filtered_sorted_limited :
    ∀ (dist : Vec → Vec → ℚ) (qe : Vec) (table : List GenieDoc) (thr : ℚ) (lim : Nat),
      (∀ row ∈ search_knowledge_base dist qe table thr lim,
        thr < row.similarity_score ∧
          ∃ d ∈ table, ∃ v, d.question_embedding = some v ∧
            row.similarity_score = 1 - dist v qe ∧ row.question = d.question ∧
            row.answer = d.answer) ∧
      (search_knowledge_base dist qe table thr lim).Pairwise
        (fun a b => b.similarity_score ≤ a.similarity_score) ∧
      (search_knowledge_base dist qe table thr lim).length ≤ lim ∧
      search_knowledge_base dist qe [] thr lim = [] := by
  intro dist qe table thr lim
  refine ⟨?_, ?_, ?_, ?_⟩
  · intro row hrow
    have hmem : row ∈ sortDesc (scoreRows dist qe table thr) :=
      List.mem_of_mem_take hrow
    exact mem_scoreRows (mem_sortDesc.mp hmem)
  · exact (pairwise_sortDesc (scoreRows dist qe table thr)).sublist
      (List.take_sublist lim _)
  · exact List.length_take_le lim _
  · simp [search_knowledge_base, scoreRows, sortDesc]

/-- A stand-in for the store's cosine-distance operator in the witnesses:
constant distance 0, hence score 1 for every stored vector. -/
def distZero : Vec → Vec → ℚ := fun _ _ => 0

/-- A one-row store used by the search witnesses. -/
def tableW : List GenieDoc := [⟨1, "q1", "a1", none, none, some [1], none⟩]

/-- C8 witness: on a concrete one-row store with threshold 0.7 and limit 5,
the single returned row clears the floor and the result respects the limit. -/
theorem search_results_filtered_sorted_limited_witness :
    (7 : ℚ) / 10 < (⟨"q1", "a1", none, none, 1⟩ : SearchRow).similarity_score ∧
    (search_knowledge_base distZero [] tableW ((7 : ℚ) / 10) 5).length ≤ 5 := by
  have h := search_results_filtered_sorted_limited distZero [] tableW ((7 : ℚ) / 10) 5
  have hval : search_knowledge_base distZero [] tableW ((7 : ℚ) / 10) 5 =
      [⟨"q1", "a1", none, none, 1⟩] := by
    norm_num [search_knowledge_base, scoreRows, tableW, sortDesc, insertDesc, distZero]
  refine ⟨(h.1 ⟨"q1", "a1", none, none, 1⟩ ?_).1, h.2.2.1⟩
  rw [hval]
  exact List.mem_singleton.mpr rfl

/-- C9: the `/search` endpoint never answers with the 503
"Embedding service unavailable" condition — `get_embeddings` already turns
every `RequestException` into the all-zero vector, so the endpoint's
`except requests.RequestException` handler is unreachable, and on a
provider failure the search silently proceeds with the `D`-zero query
embedding. -/
theorem search_never_reports_embedding_failure :
    ∀ (dist : Vec → Vec → ℚ) (resp : ProviderResp) (table : List GenieDoc) (thr : ℚ)
      (lim : Nat),
      search_endpoint dist resp table thr lim ≠ SearchOutcome.embeddingServiceError ∧
      ((resp = ProviderResp.netFailure ∨ resp = ProviderResp.httpError ∨
          resp = ProviderResp.badJson) →
        search_endpoint dist resp table thr lim =
          SearchOutcome.ok (search_knowledge_base dist (List.replicate D 0) table thr lim)) := by
  intro dist resp table thr lim
  have hne : ∀ v : Vec, get_embeddings resp D ≠ Except.error PyExc.requestException := by
    intro _
    unfold get_embeddings
    rcases get_embeddings_try resp D with e | v
    · rcases e with _ | _ <;> simp
    · simp
  constructor
  · unfold search_endpoint
    rcases hg : get_embeddings resp D with e | qe
    · rcases e with _ | _
      · exact absurd hg (hne [])
      · simp
    · simp
  · rintro (rfl | rfl | rfl)
    · unfold search_endpoint
      rw [show get_embeddings ProviderResp.netFailure D = Except.ok (List.replicate D 0)
        from rfl]
    · unfold search_endpoint
      rw [show get_embeddings ProviderResp.httpError D = Except.ok (List.replicate D 0)
        from rfl]
    · unfold search_endpoint
      rw [show get_embeddings ProviderResp.badJson D = Except.ok (List.replicate D 0)
        from rfl]

/-- C9 witness: with the provider unreachable and an empty store, the
endpoint answers with an ordinary empty result, not the embedding-service
error. -/
theorem search_never_reports_embedding_failure_witness :
    search_endpoint distZero ProviderResp.netFailure [] ((7 : ℚ) / 10) 5 =
      SearchOutcome.ok [] := by
  have h := (search_never_reports_embedding_failure distZero ProviderResp.netFailure []
    ((7 : ℚ) / 10) 5).2 (Or.inl rfl)
  rw [h]
  rfl

/-- A row of the MySQL table `tbl_genie_genie` as the sync pass reads it
(src/app.py lines 349-353); `Option` models SQL NULL (the code normalizes
with `or ""`). -/
structure SourceRow where
  id : Nat
  genie_question : Option String
  genie_answer : Option String
  genie_questiondate : Option String
  genie_sourcelink : Option String
deriving DecidableEq

/-- The pgvector connection `pgv_conn`: committed table, in-transaction
view, and the serial `id` sequence.  Postgres sequences are not
transactional, so `nextId` advances even on conflict and never rolls
back. -/
structure PgvConn where
  committed : List GenieDoc
  cur : List GenieDoc
  nextId : Nat
deriving DecidableEq

/-- The progress connection `pg_conn` with its `migration_tracker` table,
modelled as the list of `id_migrated` values.  Each pass appends a fresh
row (the `ON CONFLICT (id)` clause never fires: `id` is serial), and the
mark is read back as `COALESCE(MAX(id_migrated), 0)`. -/
structure PgConn where
  committed : List Nat
  cur : List Nat
deriving DecidableEq

/-- `SELECT COALESCE(MAX(id_migrated), 0) FROM migration_tracker`. -/
def markOf (tracker : List Nat) : Nat := tracker.foldr max 0

/-- The environment of one sync pass: the MySQL table in the store's
return order (the query has no `ORDER BY`), the embedding client as a
function from input text to the vector `get_embeddings` produces, and a
fault-injection predicate saying whose `INSERT INTO genie_documents`
raises `psycopg2.Error`. -/
structure SyncEnv where
  src : List SourceRow
  embed : String → Vec
  failInsert : Nat → Bool

/-- The two psycopg2 connections held in `app.state`. -/
structure SyncState where
  pgv : PgvConn
  pg : PgConn
deriving DecidableEq

/-- `row.get('genie_question') or ""`. -/
def normQ (r : SourceRow) : String := r.genie_question.getD ""

/-- `row.get('genie_answer') or ""`. -/
def normA (r : SourceRow) : String := r.genie_answer.getD ""

/-- The MySQL fetch of the pass (src/app.py lines 349-354):
`WHERE id > last_migrated_id`, no `ORDER BY`, so the kept rows appear in
the store's order. -/
def fetchRows (env : SyncEnv) (st : SyncState) : List SourceRow :=
  env.src.filter (fun r => decide (markOf st.pg.cur < r.id))

/-- The dedup snapshot `SELECT question FROM genie_documents`
(src/app.py lines 365-369), taken once per pass. -/
def existingOf (st : SyncState) : List String := st.pgv.cur.map (fun d => d.question)

/-- `INSERT INTO genie_documents ... ON CONFLICT (question) DO UPDATE SET
date = EXCLUDED.date RETURNING id` (src/app.py lines 387-396): on a fresh
question append a row with embeddings NULL; on conflict only `date` is
updated and the existing row's `id` is returned.  Result: (new table view,
new sequence value, returned id). -/
def insertDoc (db : List GenieDoc) (nextId : Nat) (q a : String)
    (link date : Option String) : List GenieDoc × Nat × Nat :=
  match db.find? (fun d => decide (d.question = q)) with
  | some d0 =>
    (db.map (fun x => if x.question = q then { x with date := date } else x), nextId + 1, d0.id)
  | none => (db ++ [⟨nextId, q, a, link, date, none, none⟩], nextId + 1, nextId)

/-- `update_embeddings_in_pgv` (src/app.py lines 115-130): embed the
question, embed the answer — `get_embeddings(answer) if answer else
get_embeddings("")`, a provider call either way — `UPDATE genie_documents
SET ... WHERE id = question_id`, then `pgv_conn.commit()`.  Returns the
committed connection and the list of texts sent to the provider. -/
def update_embeddings_in_pgv (env : SyncEnv) (pgv : PgvConn) (question_id : Nat)
    (question answer : String) : PgvConn × List String :=
  let answerArg := if answer = "" then "" else answer
  let question_embedding := env.embed question
  let answer_embedding := env.embed answerArg
  let cur2 := pgv.cur.map (fun d =>
    if d.id = question_id then
      { d with question_embedding := some question_embedding,
               answer_embedding := some answer_embedding }
    else d)
  (⟨cur2, cur2, pgv.nextId⟩, [question, answerArg])

/-- Outcome of one loop iteration: the new connection and this record's
provider calls, or the insert failure (handler at src/app.py lines
397-403: `pgv_conn.rollback()` then raise). -/
inductive StepRes where
  | ok (pgv : PgvConn) (calls : List String)
  | fail (pgv : PgvConn)
deriving DecidableEq

/-- One iteration of the per-record loop (src/app.py lines 378-405): skip
when the question is in the dedup snapshot; otherwise run the insert (which
may raise — the handler rolls the pgv connection back) and, on success,
unconditionally `update_embeddings_in_pgv`. -/
def sync_row (env : SyncEnv) (existing : List String) (pgv : PgvConn) (r : SourceRow) :
    StepRes :=
  if normQ r ∈ existing then StepRes.ok pgv []
  else if env.failInsert r.id then StepRes.fail ⟨pgv.committed, pgv.committed, pgv.nextId⟩
  else
    let ins := insertDoc pgv.cur pgv.nextId (normQ r) (normA r)
      r.genie_sourcelink r.genie_questiondate
    let upd := update_embeddings_in_pgv env ⟨pgv.committed, ins.1, ins.2.1⟩ ins.2.2
      (normQ r) (normA r)
    StepRes.ok upd.1 upd.2

/-- Result of the whole per-record loop, accumulating provider calls; a
`fail` carries the rolled-back connection and aborts the pass. -/
inductive LoopRes where
  | ok (pgv : PgvConn) (calls : List String)
  | fail (pgv : PgvConn) (calls : List String)
deriving DecidableEq

/-- The `for row in rows:` loop of the sync pass. -/
def sync_loop (env : SyncEnv) (existing : List String) :
    List SourceRow → PgvConn → List String → LoopRes
  | [], pgv, acc => LoopRes.ok pgv acc
  | r :: rs, pgv, acc =>
    match sync_row env existing pgv r with
    | StepRes.ok pgv1 calls => sync_loop env existing rs pgv1 (acc ++ calls)
    | StepRes.fail pgv1 => LoopRes.fail pgv1 acc

/-- Observable outcome of `/documents/sync-embeddings`: the success answer
with its `synced` count, or an aborted pass (an `HTTPException` error
response). -/
inductive SyncOutcome where
  | ok (synced : Nat)
  | aborted
deriving DecidableEq

/-- What one pass produces: the outcome, the two connections afterwards,
and every text sent to the embedding provider, in call order. -/
structure SyncResult where
  outcome : SyncOutcome
  state : SyncState
  calls : List String
deriving DecidableEq

/-- `sync_embeddings` (src/app.py lines 329-454): read the high-water mark
as `MAX(id_migrated)`, fetch the source rows with `id > mark` (store
order), return early when empty, take the dedup snapshot, run the
per-record loop, and on success insert `rows[-1]['id']` into
`migration_tracker`, commit both connections and answer
`{"synced": len(rows)}`.  An insert failure aborts the pass, leaving the
progress connection untouched. -/
def sync_embeddings (env : SyncEnv) (st : SyncState) : SyncResult :=
  match fetchRows env st with
  | [] => ⟨SyncOutcome.ok 0, st, []⟩
  | r0 :: rest =>
    match sync_loop env (existingOf st) (r0 :: rest) st.pgv [] with
    | LoopRes.fail pgv1 calls => ⟨SyncOutcome.aborted, ⟨pgv1, st.pg⟩, calls⟩
    | LoopRes.ok pgv1 calls =>
      let lastId := (List.getLastD rest r0).id
      let tracker2 := st.pg.cur ++ [lastId]
      ⟨SyncOutcome.ok (r0 :: rest).length,
        ⟨⟨pgv1.cur, pgv1.cur, pgv1.nextId⟩, ⟨tracker2, tracker2⟩⟩, calls⟩

/-- Fresh connections: empty target table, empty tracker, sequence at 0. -/
def stEmpty : SyncState := ⟨⟨[], [], 0⟩, ⟨[], []⟩⟩

/-- A source store that returns the two pending rows in descending-id
order — legal, since the fetch query has no `ORDER BY`. -/
def envC1 : SyncEnv :=
  ⟨[⟨2, some "B", none, none, none⟩, ⟨1, some "A", none, none, none⟩],
    fun _ => [0], fun _ => false⟩

/-- C1: the fetch at src/app.py lines 349-353 has no `ORDER BY`, yet line
414 records `rows[-1]['id']` as the new mark.  When the store returns the
batch in the order `[id 2, id 1]`, the pass succeeds, processes both ids,
but commits mark 1: the stored high-water mark is not the maximum source
id processed, and row 2 will be re-fetched by the next pass. -/
theorem sync_mark_misses_max_on_unordered_fetch :
    (sync_embeddings envC1 stEmpty).outcome = SyncOutcome.ok 2 ∧
    (fetchRows envC1 stEmpty).map SourceRow.id = [2, 1] ∧
    "B" ∈ (sync_embeddings envC1 stEmpty).state.pgv.committed.map GenieDoc.question ∧
    markOf (sync_embeddings envC1 stEmpty).state.pg.committed = 1 := by
  decide

/-- A batch holding the same question twice, with different answers and
dates: the second row collides with the row the first one just inserted
(the dedup snapshot predates both). -/
def envC4 : SyncEnv :=
  ⟨[⟨1, some "Q", some "a1", some "d1", none⟩, ⟨2, some "Q", some "a2", some "d2", none⟩],
    fun s => [(s.length : ℚ)], fun _ => false⟩

/-- C4, counterexample: on the uniqueness conflict the code does update
`date`, but then calls `update_embeddings_in_pgv` unconditionally (line
405): the provider is called again for the conflicting record ("Q" and
"a2" both appear in the call list) and both embedding fields of the
existing row are overwritten — the answer embedding now comes from "a2"
while the stored answer text is still "a1". -/
theorem sync_conflict_embeds_again :
    (sync_embeddings envC4 stEmpty).calls = ["Q", "a1", "Q", "a2"] ∧
    (sync_embeddings envC4 stEmpty).state.pgv.committed =
      [⟨0, "Q", "a1", none, some "d2", some [1], some [2]⟩] := by
  decide

/-- A target store already holding question "A", and a source batch whose
single row carries that same question: the row is skipped by the dedup
snapshot. -/
def docA : GenieDoc := ⟨0, "A", "old", none, none, some [5], some [5]⟩

def stC5 : SyncState := ⟨⟨[docA], [docA], 1⟩, ⟨[], []⟩⟩

def envC5 : SyncEnv := ⟨[⟨1, some "A", none, none, none⟩], fun _ => [0], fun _ => false⟩

/-- C5, counterexample: the pass skips its only row (no provider call is
made, so nothing was processed), yet answers `synced = len(rows) = 1`,
not the processed-excluding-skips count 0. -/
theorem sync_count_counts_skipped :
    (sync_embeddings envC5 stC5).outcome = SyncOutcome.ok 1 ∧
    (sync_embeddings envC5 stC5).calls = [] := by
  decide

/-- A single fresh row whose answer is NULL (normalized to ""), with an
embedding client whose value on "" is the non-zero vector [1]. -/
def envC7 : SyncEnv :=
  ⟨[⟨1, some "Q", none, none, none⟩], fun s => [(s.length : ℚ), 1], fun _ => false⟩

/-- C7, counterexample: for an empty answer the code runs
`get_embeddings("")` — the empty string appears in the provider call list —
and stores whatever that call returns ([0, 1] here, not a zero vector):
`update_embeddings_in_pgv` line 117 calls the provider in both branches of
`if answer`. -/
theorem sync_empty_answer_still_calls_provider :
    (sync_embeddings envC7 stEmpty).calls = ["Q", ""] ∧
    (sync_embeddings envC7 stEmpty).state.pgv.committed =
      [⟨0, "Q", "", none, none, some [1, 1], some [0, 1]⟩] := by
  decide

/-- The per-row write performed by the `UPDATE ... WHERE id = question_id`
of `update_embeddings_in_pgv`, as a named function for reasoning. -/
def embWrite (env : SyncEnv) (question answer : String) (question_id : Nat)
    (d : GenieDoc) : GenieDoc :=
  if d.id = question_id then
    { d with question_embedding := some (env.embed question),
             answer_embedding := some (env.embed (if answer = "" then "" else answer)) }
  else d

/-- The per-row write performed by `ON CONFLICT ... DO UPDATE SET date`. -/
def dateWrite (q : String) (date : Option String) (x : GenieDoc) : GenieDoc :=
  if x.question = q then { x with date := date } else x

theorem update_emb_spec (env : SyncEnv) (pgv : PgvConn) (qid : Nat) (q a : String) :
    update_embeddings_in_pgv env pgv qid q a =
      (⟨pgv.cur.map (embWrite env q a qid), pgv.cur.map (embWrite env q a qid), pgv.nextId⟩,
        [q, if a = "" then "" else a]) := rfl

theorem insertDoc_conflict {db : List GenieDoc} {nextId : Nat} {q a : String}
    {link date : Option String} {d0 : GenieDoc}
    (h : db.find? (fun d => decide (d.question = q)) = some d0) :
    insertDoc db nextId q a link date = (db.map (dateWrite q date), nextId + 1, d0.id) := by
  unfold insertDoc dateWrite
  rw [h]

theorem insertDoc_fresh {db : List GenieDoc} {nextId : Nat} {q a : String}
    {link date : Option String}
    (h : db.find? (fun d => decide (d.question = q)) = none) :
    insertDoc db nextId q a link date =
      (db ++ [⟨nextId, q, a, link, date, none, none⟩], nextId + 1, nextId) := by
  unfold insertDoc
  rw [h]

theorem embWrite_id (env : SyncEnv) (q a : String) (qid : Nat) (d : GenieDoc) :
    (embWrite env q a qid d).id = d.id := by
  unfold embWrite
  split <;> rfl

theorem embWrite_question (env : SyncEnv) (q a : String) (qid : Nat) (d : GenieDoc) :
    (embWrite env q a qid d).question = d.question := by
  unfold embWrite
  split <;> rfl

theorem dateWrite_id (q : String) (date : Option String) (x : GenieDoc) :
    (dateWrite q date x).id = x.id := by
  unfold dateWrite
  split <;> rfl

theorem dateWrite_question (q : String) (date : Option String) (x : GenieDoc) :
    (dateWrite q date x).question = x.question := by
  unfold dateWrite
  split <;> rfl

theorem dateWrite_qemb (q : String) (date : Option String) (x : GenieDoc) :
    (dateWrite q date x).question_embedding = x.question_embedding := by
  unfold dateWrite
  split <;> rfl

theorem dateWrite_aemb (q : String) (date : Option String) (x : GenieDoc) :
    (dateWrite q date x).answer_embedding = x.answer_embedding := by
  unfold dateWrite
  split <;> rfl

theorem map_proj_eq {α β : Type} (f : α → α) (g : α → β) (h : ∀ x, g (f x) = g x) :
    ∀ l : List α, (l.map f).map g = l.map g := by
  intro l
  induction l with
  | nil => rfl
  | cons a t ih => simp only [List.map_cons, h, ih]

theorem sync_row_skip {env : SyncEnv} {existing : List String} {pgv : PgvConn}
    {r : SourceRow} (h : normQ r ∈ existing) :
    sync_row env existing pgv r = StepRes.ok pgv [] := by
  unfold sync_row
  rw [if_pos h]

theorem sync_row_failed {env : SyncEnv} {existing : List String} {pgv : PgvConn}
    {r : SourceRow} (h1 : normQ r ∉ existing) (h2 : env.failInsert r.id = true) :
    sync_row env existing pgv r =
      StepRes.fail ⟨pgv.committed, pgv.committed, pgv.nextId⟩ := by
  unfold sync_row
  rw [if_neg h1, if_pos h2]

theorem sync_row_proc {env : SyncEnv} {existing : List String} {pgv : PgvConn}
    {r : SourceRow} (h1 : normQ r ∉ existing) (h2 : env.failInsert r.id = false) :
    sync_row env existing pgv r =
      (fun upd => StepRes.ok upd.1 upd.2)
        (update_embeddings_in_pgv env
          ⟨pgv.committed,
            (insertDoc pgv.cur pgv.nextId (normQ r) (normA r)
              r.genie_sourcelink r.genie_questiondate).1,
            (insertDoc pgv.cur pgv.nextId (normQ r) (normA r)
              r.genie_sourcelink r.genie_questiondate).2.1⟩
          (insertDoc pgv.cur pgv.nextId (normQ r) (normA r)
            r.genie_sourcelink r.genie_questiondate).2.2
          (normQ r) (normA r)) := by
  unfold sync_row
  rw [if_neg h1, if_neg (by simp [h2])]

theorem embWrite_hit {env : SyncEnv} {q a : String} {qid : Nat} {d : GenieDoc}
    (h : d.id = qid) :
    embWrite env q a qid d =
      { d with question_embedding := some (env.embed q),
               answer_embedding := some (env.embed (if a = "" then "" else a)) } := by
  unfold embWrite
  rw [if_pos h]

theorem embWrite_miss {env : SyncEnv} {q a : String} {qid : Nat} {d : GenieDoc}
    (h : d.id ≠ qid) : embWrite env q a qid d = d := by
  unfold embWrite
  rw [if_neg h]

theorem dateWrite_hit {q : String} {date : Option String} {x : GenieDoc}
    (h : x.question = q) : dateWrite q date x = { x with date := date } := by
  unfold dateWrite
  rw [if_pos h]

theorem dateWrite_miss {q : String} {date : Option String} {x : GenieDoc}
    (h : x.question ≠ q) : dateWrite q date x = x := by
  unfold dateWrite
  rw [if_neg h]

/-- A successfully inserted (fresh or conflicting) record ends the loop
iteration with its question and answer sent to the provider — the answer
replaced by "" when empty — and a committed row carrying its question and
both freshly written embeddings. -/
theorem sync_row_detail {env : SyncEnv} {existing : List String} {pgv : PgvConn}
    {r : SourceRow} (h1 : normQ r ∉ existing) (h2 : env.failInsert r.id = false) :
    ∃ pgv1, sync_row env existing pgv r =
        StepRes.ok pgv1 [normQ r, if normA r = "" then "" else normA r] ∧
      ∃ d ∈ pgv1.committed, d.question = normQ r ∧
        d.question_embedding = some (env.embed (normQ r)) ∧
        d.answer_embedding = some (env.embed (if normA r = "" then "" else normA r)) := by
  have hrow := @sync_row_proc env existing pgv r h1 h2
  rcases hfind : pgv.cur.find? (fun d => decide (d.question = normQ r)) with _ | d0
  · rw [insertDoc_fresh hfind, update_emb_spec] at hrow
    dsimp only at hrow
    refine ⟨_, hrow, ?_⟩
    refine ⟨embWrite env (normQ r) (normA r) pgv.nextId
      ⟨pgv.nextId, normQ r, normA r, r.genie_sourcelink, r.genie_questiondate, none, none⟩,
      List.mem_map_of_mem _ (by simp), ?_, ?_, ?_⟩
    · simp [embWrite]
    · simp [embWrite]
    · simp [embWrite]
  · have hd0 : d0 ∈ pgv.cur := List.mem_of_find?_eq_some hfind
    have hd0q : d0.question = normQ r := by
      have := List.find?_some hfind
      simpa using this
    rw [insertDoc_conflict hfind, update_emb_spec] at hrow
    dsimp only at hrow
    refine ⟨_, hrow, ?_⟩
    refine ⟨embWrite env (normQ r) (normA r) d0.id (dateWrite (normQ r) r.genie_questiondate d0),
      List.mem_map_of_mem _ (List.mem_map_of_mem _ hd0), ?_, ?_, ?_⟩
    · simp [embWrite, dateWrite_id, dateWrite_question, hd0q]
    · simp [embWrite, dateWrite_id]
    · simp [embWrite, dateWrite_id]

/-- C5, amended: the `synced` count answered by a successful pass equals
the number of rows fetched from the source store (`len(rows)`), skipped
duplicates included. -/
theorem sync_count_eq_fetched_length :
    ∀ (env : SyncEnv) (st : SyncState) (n : Nat) (st2 : SyncState) (calls : List String),
      sync_embeddings env st = ⟨SyncOutcome.ok n, st2, calls⟩ →
      n = (fetchRows env st).length := by
  intro env st n st2 calls h
  unfold sync_embeddings at h
  rcases hf : fetchRows env st with _ | ⟨r0, rest⟩
  · rw [hf] at h
    injection h with h1 h2 h3
    injection h1 with h1
    rw [← h1]
    rfl
  · rw [hf] at h
    dsimp only at h
    rcases hl : sync_loop env (existingOf st) (r0 :: rest) st.pgv [] with
      ⟨pgv1, calls1⟩ | ⟨pgv1, calls1⟩ <;> rw [hl] at h
    · injection h with h1 h2 h3
      injection h1 with h1
      rw [← h1]
    · injection h with h1 h2 h3
      injection h1

/-- C7, amended: for a non-skipped record whose answer is empty, the loop
body still makes a provider call for the answer — `get_embeddings("")` —
and stores that call's result as the answer embedding; no deterministic
zero vector is derived without a call. -/
theorem sync_row_empty_answer_embeds_empty_string :
    ∀ (env : SyncEnv) (existing : List String) (pgv : PgvConn) (r : SourceRow),
      normA r = "" → normQ r ∉ existing → env.failInsert r.id = false →
      ∃ pgv1, sync_row env existing pgv r = StepRes.ok pgv1 [normQ r, ""] ∧
        ∃ d ∈ pgv1.committed, d.question = normQ r ∧
          d.answer_embedding = some (env.embed "") := by
  intro env existing pgv r ha h1 h2
  obtain ⟨pgv1, hrow, d, hd, hq, _, hae⟩ := sync_row_detail h1 h2
  have hifa : (if normA r = "" then "" else normA r) = "" := by rw [if_pos ha]
  rw [hifa] at hrow hae
  exact ⟨pgv1, hrow, d, hd, hq, hae⟩

/-- C7 witness: the concrete empty-answer row of `envC7` triggers the ""
provider call and stores its (non-zero) result. -/
theorem sync_row_empty_answer_embeds_empty_string_witness :
    ∃ pgv1, sync_row envC7 [] stEmpty.pgv ⟨1, some "Q", none, none, none⟩ =
        StepRes.ok pgv1 ["Q", ""] ∧
      ∃ d ∈ pgv1.committed, d.question = "Q" ∧
        d.answer_embedding = some (envC7.embed "") := by
  have h := sync_row_empty_answer_embeds_empty_string envC7 [] stEmpty.pgv
    ⟨1, some "Q", none, none, none⟩ rfl (by simp) rfl
  exact h

/-- C4, amended: when the insert hits the uniqueness constraint (the batch
already inserted this question under a row of id `d0.id`), the pass does
update that row's `date` to the incoming record's date, but then — instead
of skipping embedding — calls the provider for the record's question and
answer and overwrites both embedding fields of the existing row. -/
theorem sync_row_conflict_updates_date_and_reembeds :
    ∀ (env : SyncEnv) (existing : List String) (pgv : PgvConn) (r : SourceRow)
      (d0 : GenieDoc),
      normQ r ∉ existing → env.failInsert r.id = false →
      pgv.cur.find? (fun d => decide (d.question = normQ r)) = some d0 →
      ∃ pgv1, sync_row env existing pgv r =
          StepRes.ok pgv1 [normQ r, if normA r = "" then "" else normA r] ∧
        { d0 with date := r.genie_questiondate,
                  question_embedding := some (env.embed (normQ r)),
                  answer_embedding :=
                    some (env.embed (if normA r = "" then "" else normA r)) }
          ∈ pgv1.committed := by
  intro env existing pgv r d0 h1 h2 hfind
  have hrow := @sync_row_proc env existing pgv r h1 h2
  rw [insertDoc_conflict hfind, update_emb_spec] at hrow
  dsimp only at hrow
  have hd0 : d0 ∈ pgv.cur := List.mem_of_find?_eq_some hfind
  have hd0q : d0.question = normQ r := by
    have := List.find?_some hfind
    simpa using this
  refine ⟨_, hrow, ?_⟩
  have himg :
      embWrite env (normQ r) (normA r) d0.id (dateWrite (normQ r) r.genie_questiondate d0) =
        { d0 with date := r.genie_questiondate,
                  question_embedding := some (env.embed (normQ r)),
                  answer_embedding :=
                    some (env.embed (if normA r = "" then "" else normA r)) } := by
    rw [dateWrite_hit hd0q]
    rw [embWrite_hit (show ({ d0 with date := r.genie_questiondate } : GenieDoc).id = d0.id
      from rfl)]
  rw [← himg]
  exact List.mem_map_of_mem _ (List.mem_map_of_mem _ hd0)

/-- One existing target row used in the conflict witness. -/
def d0W : GenieDoc := ⟨5, "Q", "old", none, some "d0", none, none⟩

def pgvW4 : PgvConn := ⟨[d0W], [d0W], 6⟩

def rW4 : SourceRow := ⟨9, some "Q", some "ans", some "d9", none⟩

/-- C4 witness: a concrete conflicting insert updates the stored row's date
and rewrites both of its embeddings. -/
theorem sync_row_conflict_updates_date_and_reembeds_witness :
    ∃ pgv1, sync_row envC4 [] pgvW4 rW4 = StepRes.ok pgv1 ["Q", "ans"] ∧
      { d0W with date := some "d9",
                 question_embedding := some (envC4.embed "Q"),
                 answer_embedding := some (envC4.embed "ans") } ∈ pgv1.committed := by
  have h := sync_row_conflict_updates_date_and_reembeds envC4 [] pgvW4 rW4 d0W
    (by simp) rfl (by decide)
  exact h

/-- If some fetched row is neither skipped by the dedup snapshot nor able
to insert (its insert raises), the loop ends in `fail`. -/
theorem sync_loop_fails {env : SyncEnv} {existing : List String} :
    ∀ (rows : List SourceRow) (pgv : PgvConn) (acc : List String),
      (∃ r ∈ rows, normQ r ∉ existing ∧ env.failInsert r.id = true) →
      ∃ pgvF accF, sync_loop env existing rows pgv acc = LoopRes.fail pgvF accF := by
  intro rows
  induction rows with
  | nil =>
    rintro pgv acc ⟨r, hr, _⟩
    cases hr
  | cons r0 rs ih =>
    rintro pgv acc ⟨r, hr, hnot, hfail⟩
    by_cases hskip : normQ r0 ∈ existing
    · have hr' : r ∈ rs := by
        rcases List.mem_cons.mp hr with rfl | h
        · exact absurd hskip hnot
        · exact h
      obtain ⟨pgvF, accF, heq⟩ := ih pgv (acc ++ []) ⟨r, hr', hnot, hfail⟩
      refine ⟨pgvF, accF, ?_⟩
      unfold sync_loop
      rw [sync_row_skip hskip]
      exact heq
    · by_cases hf0 : env.failInsert r0.id = true
      · refine ⟨⟨pgv.committed, pgv.committed, pgv.nextId⟩, acc, ?_⟩
        unfold sync_loop
        rw [sync_row_failed hskip hf0]
      · have hf0' : env.failInsert r0.id = false := by
          cases hb : env.failInsert r0.id
          · rfl
          · exact absurd hb hf0
        obtain ⟨pgv1, hrow, _⟩ := sync_row_detail hskip hf0'
        have hr' : r ∈ rs := by
          rcases List.mem_cons.mp hr with rfl | h
          · rw [hfail] at hf0'
            cases hf0'
          · exact h
        obtain ⟨pgvF, accF, heq⟩ := ih pgv1
          (acc ++ [normQ r0, if normA r0 = "" then "" else normA r0]) ⟨r, hr', hnot, hfail⟩
        refine ⟨pgvF, accF, ?_⟩
        unfold sync_loop
        rw [hrow]
        exact heq

/-- C6: an aborted pass leaves the progress connection — hence the
high-water mark — exactly as it was (no tracker row of the failed batch is
committed), and a fetched row that is not skipped but whose insert fails
does abort the pass. -/
theorem sync_insert_failure_aborts_and_keeps_mark :
    ∀ (env : SyncEnv) (st : SyncState),
      (∀ st2 calls, sync_embeddings env st = ⟨SyncOutcome.aborted, st2, calls⟩ →
        st2.pg = st.pg) ∧
      (∀ r ∈ fetchRows env st, normQ r ∉ existingOf st → env.failInsert r.id = true →
        (sync_embeddings env st).outcome = SyncOutcome.aborted) := by
  intro env st
  constructor
  · intro st2 calls h
    unfold sync_embeddings at h
    rcases hf : fetchRows env st with _ | ⟨r0, rest⟩ <;> rw [hf] at h
    · injection h with h1 h2 h3
      injection h1
    · dsimp only at h
      rcases hl : sync_loop env (existingOf st) (r0 :: rest) st.pgv [] with
        ⟨pgv1, calls1⟩ | ⟨pgv1, calls1⟩ <;> rw [hl] at h
      · injection h with h1 h2 h3
        injection h1
      · injection h with h1 h2 h3
        rw [← h2]
  · intro r hr hnot hfail
    rcases hf : fetchRows env st with _ | ⟨r0, rest⟩
    · rw [hf] at hr
      cases hr
    · rw [hf] at hr
      obtain ⟨pgvF, accF, heq⟩ := sync_loop_fails (r0 :: rest) st.pgv []
        ⟨r, hr, hnot, hfail⟩
      unfold sync_embeddings
      rw [hf]
      dsimp only
      rw [heq]

/-- A source store with one fresh row whose target insert always fails. -/
def envC6 : SyncEnv := ⟨[⟨1, some "A", none, none, none⟩], fun _ => [0], fun _ => true⟩

/-- C6 witness: the failing insert aborts the concrete pass and the
progress store is byte-for-byte unchanged. -/
theorem sync_insert_failure_aborts_and_keeps_mark_witness :
    (sync_embeddings envC6 stEmpty).outcome = SyncOutcome.aborted ∧
    (sync_embeddings envC6 stEmpty).state.pg = stEmpty.pg := by
  have h := sync_insert_failure_aborts_and_keeps_mark envC6 stEmpty
  have ho : (sync_embeddings envC6 stEmpty).outcome = SyncOutcome.aborted :=
    h.2 ⟨1, some "A", none, none, none⟩ (by decide) (by decide) rfl
  refine ⟨ho, ?_⟩
  refine h.1 (sync_embeddings envC6 stEmpty).state (sync_embeddings envC6 stEmpty).calls ?_
  rw [← ho]

/-- C5 witness: the concrete all-skipped pass of `envC5` reports a count
equal to the number of fetched rows (1), as the amended claim states. -/
theorem sync_count_eq_fetched_length_witness :
    (1 : Nat) = (fetchRows envC5 stC5).length :=
  sync_count_eq_fetched_length envC5 stC5 1 ⟨⟨[docA], [docA], 1⟩, ⟨[1], [1]⟩⟩ []
    (by decide)

/-- What C10 tracks per already-processed source record: the target store
durably holds a row with the record's question, the question embedding the
client computed for it, and some answer embedding. -/
def embeddedIn (env : SyncEnv) (db : List GenieDoc) (r : SourceRow) : Prop :=
  ∃ d ∈ db, d.question = normQ r ∧ d.question_embedding = some (env.embed (normQ r)) ∧
    d.answer_embedding.isSome = true

/-- Connection sanity at loop boundaries: no uncommitted work, every stored
id below the sequence value, ids pairwise distinct, and questions pairwise
distinct (the table's unique constraint). -/
def PgvInv (pgv : PgvConn) : Prop :=
  pgv.cur = pgv.committed ∧ (∀ d ∈ pgv.cur, d.id < pgv.nextId) ∧
  (pgv.cur.map GenieDoc.id).Nodup ∧ (pgv.cur.map GenieDoc.question).Nodup

/-- A non-skipped, non-failing loop iteration commits its record's
embeddings, preserves the connection invariant, and keeps every previously
committed embedded record committed. -/
theorem sync_row_success {env : SyncEnv} {existing : List String} {pgv : PgvConn}
    {r : SourceRow} (h1 : normQ r ∉ existing) (h2 : env.failInsert r.id = false)
    (hinv : PgvInv pgv) :
    ∃ pgv1 calls1, sync_row env existing pgv r = StepRes.ok pgv1 calls1 ∧ PgvInv pgv1 ∧
      embeddedIn env pgv1.committed r ∧
      ∀ r0, embeddedIn env pgv.committed r0 → embeddedIn env pgv1.committed r0 := by
  obtain ⟨hcc, hlt, hidnd, hqnd⟩ := hinv
  have hrow := @sync_row_proc env existing pgv r h1 h2
  rcases hfind : pgv.cur.find? (fun d => decide (d.question = normQ r)) with _ | d0
  · rw [insertDoc_fresh hfind, update_emb_spec] at hrow
    dsimp only at hrow
    have hqnew : ∀ x ∈ pgv.cur, x.question ≠ normQ r := by
      intro x hx
      have := List.find?_eq_none.mp hfind x hx
      simpa using this
    refine ⟨_, _, hrow, ⟨rfl, ?_, ?_, ?_⟩, ?_, ?_⟩
    · intro d hd
      rw [List.mem_map] at hd
      obtain ⟨x, hx, rfl⟩ := hd
      rw [embWrite_id]
      rcases List.mem_append.mp hx with hx | hx
      · exact Nat.lt_trans (hlt x hx) (Nat.lt_succ_self _)
      · rw [List.mem_singleton] at hx
        subst hx
        exact Nat.lt_succ_self _
    · rw [map_proj_eq _ _ (fun x => embWrite_id env (normQ r) (normA r) pgv.nextId x)]
      rw [List.map_append, List.nodup_append]
      refine ⟨hidnd, List.nodup_singleton _, ?_⟩
      intro a ha hb
      simp only [List.map_cons, List.map_nil, List.mem_singleton] at hb
      subst hb
      rw [List.mem_map] at ha
      obtain ⟨x, hx, hxa⟩ := ha
      exact absurd hxa (Nat.ne_of_lt (hlt x hx))
    · rw [map_proj_eq _ _ (fun x => embWrite_question env (normQ r) (normA r) pgv.nextId x)]
      rw [List.map_append, List.nodup_append]
      refine ⟨hqnd, List.nodup_singleton _, ?_⟩
      intro a ha hb
      simp only [List.map_cons, List.map_nil, List.mem_singleton] at hb
      subst hb
      rw [List.mem_map] at ha
      obtain ⟨x, hx, hxa⟩ := ha
      exact absurd hxa (hqnew x hx)
    · refine ⟨embWrite env (normQ r) (normA r) pgv.nextId
        ⟨pgv.nextId, normQ r, normA r, r.genie_sourcelink, r.genie_questiondate, none, none⟩,
        List.mem_map_of_mem _ (by simp), ?_, ?_, ?_⟩
      · simp [embWrite]
      · simp [embWrite]
      · simp [embWrite]
    · rintro r0 ⟨d, hd, hq, hqe, hae⟩
      rw [← hcc] at hd
      have hne : d.id ≠ pgv.nextId := Nat.ne_of_lt (hlt d hd)
      refine ⟨d, ?_, hq, hqe, hae⟩
      have himg := @embWrite_miss env (normQ r) (normA r) pgv.nextId d hne
      rw [← himg]
      exact List.mem_map_of_mem _ (List.mem_append_left _ hd)
  · rw [insertDoc_conflict hfind, update_emb_spec] at hrow
    dsimp only at hrow
    have hd0 : d0 ∈ pgv.cur := List.mem_of_find?_eq_some hfind
    have hd0q : d0.question = normQ r := by simpa using List.find?_some hfind
    refine ⟨_, _, hrow, ⟨rfl, ?_, ?_, ?_⟩, ?_, ?_⟩
    · intro d hd
      rw [List.mem_map] at hd
      obtain ⟨x, hx, rfl⟩ := hd
      rw [List.mem_map] at hx
      obtain ⟨y, hy, rfl⟩ := hx
      rw [embWrite_id, dateWrite_id]
      exact Nat.lt_trans (hlt y hy) (Nat.lt_succ_self _)
    · rw [map_proj_eq _ _ (fun x => embWrite_id env (normQ r) (normA r) d0.id x)]
      rw [map_proj_eq _ _ (fun x => dateWrite_id (normQ r) r.genie_questiondate x)]
      exact hidnd
    · rw [map_proj_eq _ _ (fun x => embWrite_question env (normQ r) (normA r) d0.id x)]
      rw [map_proj_eq _ _ (fun x => dateWrite_question (normQ r) r.genie_questiondate x)]
      exact hqnd
    · refine ⟨embWrite env (normQ r) (normA r) d0.id
        (dateWrite (normQ r) r.genie_questiondate d0),
        List.mem_map_of_mem _ (List.mem_map_of_mem _ hd0), ?_, ?_, ?_⟩
      · simp [embWrite, dateWrite_id, dateWrite_question, hd0q]
      · simp [embWrite, dateWrite_id]
      · simp [embWrite, dateWrite_id]
    · rintro r0 ⟨d, hd, hq, hqe, hae⟩
      rw [← hcc] at hd
      by_cases hid : d.id = d0.id
      · have hdd0 : d = d0 := List.inj_on_of_nodup_map hidnd hd hd0 hid
        have hqq : normQ r = normQ r0 := by rw [← hd0q, ← hdd0, hq]
        refine ⟨embWrite env (normQ r) (normA r) d0.id
          (dateWrite (normQ r) r.genie_questiondate d0),
          List.mem_map_of_mem _ (List.mem_map_of_mem _ hd0), ?_, ?_, ?_⟩
        · simp only [embWrite, dateWrite_id]
          rw [if_pos trivial]
          show (dateWrite (normQ r) r.genie_questiondate d0).question = normQ r0
          rw [dateWrite_question, hd0q, hqq]
        · simp only [embWrite, dateWrite_id]
          rw [if_pos trivial]
          show some (env.embed (normQ r)) = some (env.embed (normQ r0))
          rw [hqq]
        · simp only [embWrite, dateWrite_id]
          rw [if_pos trivial]
          rfl
      · have hmiss :
            embWrite env (normQ r) (normA r) d0.id
              (dateWrite (normQ r) r.genie_questiondate d) =
              dateWrite (normQ r) r.genie_questiondate d := by
          apply embWrite_miss
          rw [dateWrite_id]
          exact hid
        refine ⟨embWrite env (normQ r) (normA r) d0.id
          (dateWrite (normQ r) r.genie_questiondate d),
          List.mem_map_of_mem _ (List.mem_map_of_mem _ hd), ?_, ?_, ?_⟩
        · rw [hmiss, dateWrite_question]
          exact hq
        · rw [hmiss, dateWrite_qemb]
          exact hqe
        · rw [hmiss, dateWrite_aemb]
          exact hae

/-- Running the loop over `pre ++ rf :: post`, where every `pre` insert
succeeds and `rf` is not skipped but its insert raises, ends in `fail`;
the rolled-back connection still holds, committed, every embedded record:
those committed before the pass and every non-skipped record of `pre`. -/
theorem sync_loop_prefix_fail {env : SyncEnv} {existing : List String} :
    ∀ (pre : List SourceRow) (rf : SourceRow) (post : List SourceRow) (pgv : PgvConn)
      (acc : List String),
      PgvInv pgv →
      (∀ r ∈ pre, env.failInsert r.id = false) →
      normQ rf ∉ existing →
      env.failInsert rf.id = true →
      ∃ pgvF accF,
        sync_loop env existing (pre ++ rf :: post) pgv acc = LoopRes.fail pgvF accF ∧
        (∀ r0, embeddedIn env pgv.committed r0 → embeddedIn env pgvF.committed r0) ∧
        (∀ r ∈ pre, normQ r ∉ existing → embeddedIn env pgvF.committed r) := by
  intro pre
  induction pre with
  | nil =>
    intro rf post pgv acc hinv hpre hnot hfail
    refine ⟨⟨pgv.committed, pgv.committed, pgv.nextId⟩, acc, ?_, ?_, ?_⟩
    · show sync_loop env existing (rf :: post) pgv acc = _
      unfold sync_loop
      rw [sync_row_failed hnot hfail]
    · intro r0 h
      exact h
    · intro r hr
      cases hr
  | cons p ps ih =>
    intro rf post pgv acc hinv hpre hnot hfail
    by_cases hskip : normQ p ∈ existing
    · obtain ⟨pgvF, accF, heq, hpres, hdone⟩ := ih rf post pgv (acc ++ []) hinv
        (fun r hr => hpre r (List.mem_cons_of_mem _ hr)) hnot hfail
      refine ⟨pgvF, accF, ?_, hpres, ?_⟩
      · rw [List.cons_append]
        unfold sync_loop
        rw [sync_row_skip hskip]
        exact heq
      · intro r hr hrn
        rcases List.mem_cons.mp hr with rfl | hr'
        · exact absurd hskip hrn
        · exact hdone r hr' hrn
    · have hf0 : env.failInsert p.id = false := hpre p (List.mem_cons_self _ _)
      obtain ⟨pgv1, calls1, hrow, hinv1, hest, hpres1⟩ := sync_row_success hskip hf0 hinv
      obtain ⟨pgvF, accF, heq, hpres, hdone⟩ := ih rf post pgv1 (acc ++ calls1) hinv1
        (fun r hr => hpre r (List.mem_cons_of_mem _ hr)) hnot hfail
      refine ⟨pgvF, accF, ?_, ?_, ?_⟩
      · rw [List.cons_append]
        unfold sync_loop
        rw [hrow]
        exact heq
      · intro r0 h
        exact hpres r0 (hpres1 r0 h)
      · intro r hr hrn
        rcases List.mem_cons.mp hr with rfl | hr'
        · exact hpres r hest
        · exact hdone r hr' hrn

/-- C10: each record's embedding write is committed individually (the
commit inside `update_embeddings_in_pgv`), so when a later insert of the
same batch fails, the pass aborts with the progress connection untouched
while every record processed earlier in the batch is still durably present
in the target store with its embeddings attached. -/
theorem sync_earlier_records_survive_abort :
    ∀ (env : SyncEnv) (st : SyncState) (pre : List SourceRow) (rf : SourceRow)
      (post : List SourceRow),
      PgvInv st.pgv →
      fetchRows env st = pre ++ rf :: post →
      (∀ r ∈ pre, env.failInsert r.id = false) →
      normQ rf ∉ existingOf st →
      env.failInsert rf.id = true →
      (sync_embeddings env st).outcome = SyncOutcome.aborted ∧
      (sync_embeddings env st).state.pg = st.pg ∧
      ∀ r ∈ pre, normQ r ∉ existingOf st →
        embeddedIn env (sync_embeddings env st).state.pgv.committed r := by
  intro env st pre rf post hinv hf hpre hnot hfail
  obtain ⟨pgvF, accF, heq, hpres, hdone⟩ :=
    sync_loop_prefix_fail pre rf post st.pgv [] hinv hpre hnot hfail
  rcases hsplit : pre ++ rf :: post with _ | ⟨r0, rest⟩
  · exact absurd hsplit (by simp)
  · rw [hsplit] at heq
    have hU : sync_embeddings env st = ⟨SyncOutcome.aborted, ⟨pgvF, st.pg⟩, accF⟩ := by
      unfold sync_embeddings
      rw [hf.trans hsplit]
      dsimp only
      rw [heq]
    rw [hU]
    refine ⟨rfl, rfl, ?_⟩
    intro r hr hrn
    exact hdone r hr hrn

/-- Two fresh rows; the insert of the second (id 2) raises. -/
def envC10 : SyncEnv :=
  ⟨[⟨1, some "A", some "x", none, none⟩, ⟨2, some "B", none, none, none⟩],
    fun s => [(s.length : ℚ)], fun i => i == 2⟩

/-- C10 witness: the concrete pass aborts on the second record, the
progress store is unchanged, and the first record sits committed in the
target store with both embeddings written. -/
theorem sync_earlier_records_survive_abort_witness :
    (sync_embeddings envC10 stEmpty).outcome = SyncOutcome.aborted ∧
    (sync_embeddings envC10 stEmpty).state.pg = stEmpty.pg ∧
    embeddedIn envC10 (sync_embeddings envC10 stEmpty).state.pgv.committed
      ⟨1, some "A", some "x", none, none⟩ := by
  have h := sync_earlier_records_survive_abort envC10 stEmpty
    [⟨1, some "A", some "x", none, none⟩] ⟨2, some "B", none, none, none⟩ []
    ⟨rfl, by simp [stEmpty], by simp [stEmpty], by simp [stEmpty]⟩
    (by decide) (by decide) (by decide) rfl
  exact ⟨h.1, h.2.1, h.2.2 ⟨1, some "A", some "x", none, none⟩ (by decide) (by decide)⟩
